import Mathlib

/-!
Verification of the 360-scene-synthesizer front end.

The definitions below are a shallow embedding of the TypeScript sources:
the SceneImage data model and AppState enum from types.ts, the state
handlers of App.tsx (handleFileChange, handleAngleRelease,
handleGenerateSequence, handleEnhancement, handleRemoveBackground), the
angle-bucket classifier getAngleDescription of services/geminiService.ts,
the knob angle computation calculateAngle of KnobControl.tsx, and the
drag-to-scrub index computation of ImageDisplay.tsx (handleMouseMove).

Remote generation calls are modelled by oracle parameters of type
Except String String (error message, or returned data URL); fresh ids
produced by crypto.randomUUID are modelled by Nat parameters.  JavaScript
numbers are modelled by Int where the program only ever produces integers
(store angles, pixel deltas, indices), by Rat in getAngleDescription
(finite doubles are rationals), and by Real in the knob geometry where
atan2 is involved.  The JavaScript remainder operator is truncated
remainder (Int.tmod); Math.floor is the floor function; Math.round x is
the floor of x + 1/2, which matches the Mathlib round function.
-/

/-- SceneImage record from types.ts. -/
structure SceneImage where
  id : Nat
  data : String
  mimeType : String
  angle : Int
  isOriginal : Bool
deriving DecidableEq, Repr

/-- AppState enum from types.ts. -/
inductive AppStateE where
  | IDLE | UPLOADING | READY | GENERATING | GENERATING_SEQUENCE | ANALYZING | ERROR
deriving DecidableEq, Repr

/-- The React state of App.tsx after an upload has completed:
originalImage, currentImage, sequenceImages, error, appState. -/
structure AppModel where
  originalImage : SceneImage
  currentImage : SceneImage
  sequenceImages : List SceneImage
  error : Option String
  appState : AppStateE
deriving DecidableEq, Repr

/-- Comparison used by the sort in App.tsx: (a, b) => a.angle - b.angle. -/
def byAngle (a b : SceneImage) : Prop := a.angle ≤ b.angle

instance : DecidableRel byAngle := fun a b => inferInstanceAs (Decidable (a.angle ≤ b.angle))

instance : IsTotal SceneImage byAngle := ⟨fun a b => le_total a.angle b.angle⟩

instance : IsTrans SceneImage byAngle := ⟨fun _ _ _ => le_trans⟩

/-- Model of Array.prototype.sort with comparator (a, b) => a.angle - b.angle
(a stable sort producing a list nondecreasing in angle). -/
def sortByAngle (l : List SceneImage) : List SceneImage := List.insertionSort byAngle l

/-- The store is nondecreasing in angle. -/
def SortedStore (l : List SceneImage) : Prop := List.Sorted byAngle l

instance (l : List SceneImage) : Decidable (SortedStore l) :=
  inferInstanceAs (Decidable (List.Pairwise byAngle l))

theorem sortByAngle_perm (l : List SceneImage) : List.Perm (sortByAngle l) l :=
  List.perm_insertionSort byAngle l

theorem sortByAngle_sorted (l : List SceneImage) : SortedStore (sortByAngle l) :=
  List.sorted_insertionSort byAngle l

theorem sortByAngle_length (l : List SceneImage) : (sortByAngle l).length = l.length :=
  (sortByAngle_perm l).length_eq

theorem mem_sortByAngle {x : SceneImage} {l : List SceneImage} :
    x ∈ sortByAngle l ↔ x ∈ l :=
  (sortByAngle_perm l).mem_iff

/-- handleFileChange of App.tsx: rejects files over 5 MB, otherwise seeds
the state with the uploaded image at angle 0 marked as original. -/
def handleFileChange (fileSize : Nat) (freshId : Nat) (dataUrl mime : String) :
    Option AppModel :=
  if 5 * 1024 * 1024 < fileSize then none
  else
    let newImage : SceneImage :=
      { id := freshId, data := dataUrl, mimeType := mime, angle := 0, isOriginal := true }
    some { originalImage := newImage, currentImage := newImage,
           sequenceImages := [newImage], error := none, appState := .READY }

/-- Result of handleAngleRelease: the new state together with the number of
remote generation calls that were issued. -/
structure ReleaseResult where
  state : AppModel
  remoteCalls : Nat
deriving DecidableEq, Repr

/-- handleAngleRelease of App.tsx.  First looks for a cached image whose
angle is within 10 degrees of the requested one; then snaps to the
original when the requested angle is above 350 or below 10; otherwise
issues one remote generation call (its outcome is the oracle argument
gen) and on success appends the generated image and re-sorts the store. -/
def handleAngleRelease (s : AppModel) (finalAngle : Int)
    (gen : Except String String) (freshId : Nat) : ReleaseResult :=
  match s.sequenceImages.find? (fun img => decide ((img.angle - finalAngle).natAbs < 10)) with
  | some existing => ⟨{ s with currentImage := existing }, 0⟩
  | none =>
    if 350 < finalAngle ∨ finalAngle < 10 then
      ⟨{ s with currentImage := s.originalImage }, 0⟩
    else
      match gen with
      | .ok dataUrl =>
        let generatedImage : SceneImage :=
          { id := freshId, data := dataUrl, mimeType := "image/png",
            angle := finalAngle, isOriginal := false }
        ⟨{ s with currentImage := generatedImage,
                  sequenceImages := sortByAngle (s.sequenceImages ++ [generatedImage]),
                  error := none, appState := .READY }, 1⟩
      | .error msg =>
        ⟨{ s with error := some (if msg = "" then "Error desconocido." else msg),
                  appState := .ERROR }, 1⟩

/-- handleEnhancement of App.tsx (success outcome passed as gen).  On
success the result keeps the current angle, is marked not original, and
replaces every store entry within 1 degree of the current angle. -/
def handleEnhancement (s : AppModel) (gen : Except String String) (freshId : Nat) :
    AppModel :=
  match gen with
  | .ok dataUrl =>
    let newImage : SceneImage :=
      { id := freshId, data := dataUrl, mimeType := "image/png",
        angle := s.currentImage.angle, isOriginal := false }
    let seq :=
      if 0 < s.sequenceImages.length then
        s.sequenceImages.map (fun img =>
          if (img.angle - s.currentImage.angle).natAbs < 1 then newImage else img)
      else s.sequenceImages
    { s with currentImage := newImage, sequenceImages := seq,
             error := none, appState := .READY }
  | .error msg => { s with error := some msg, appState := .ERROR }

/-- handleRemoveBackground of App.tsx: same replacement shape as
handleEnhancement (it calls enhanceImage with BACKGROUND_REMOVAL), except
that it does not clear the error banner on entry. -/
def handleRemoveBackground (s : AppModel) (gen : Except String String) (freshId : Nat) :
    AppModel :=
  match gen with
  | .ok dataUrl =>
    let newImage : SceneImage :=
      { id := freshId, data := dataUrl, mimeType := "image/png",
        angle := s.currentImage.angle, isOriginal := false }
    let seq :=
      if 0 < s.sequenceImages.length then
        s.sequenceImages.map (fun img =>
          if (img.angle - s.currentImage.angle).natAbs < 1 then newImage else img)
      else s.sequenceImages
    { s with currentImage := newImage, sequenceImages := seq, appState := .READY }
  | .error msg => { s with error := some msg, appState := .ERROR }

/-- The eight planned sweep angles of handleGenerateSequence. -/
def sweepAngles : List Int := [0, 45, 90, 135, 180, 225, 270, 315]

/-- The seven angles for which the sweep actually issues remote calls
(angle 0 is skipped: the original is reused). -/
def remoteAngles : List Int := [45, 90, 135, 180, 225, 270, 315]

/-- Result of a sweep: final state, number of remote calls issued, and the
successive values written to the sequence store (one write per successful
generation, in order). -/
structure SweepResult where
  state : AppModel
  calls : Nat
  storeWrites : List (List SceneImage)
deriving DecidableEq, Repr

/-- The for-loop of handleGenerateSequence.  Walks the planned angles in
order, skipping 0; each successful call appends the generated image to the
accumulator and writes the sorted accumulator to the store; the first
failure stops the loop, records the descriptive error, and leaves the
store as last written. -/
def sweepLoop (orig : SceneImage) (gen : Int → Except String String)
    (ids : Int → Nat) : List Int → List SceneImage → AppModel → SweepResult
  | [], _, s => ⟨{ s with currentImage := orig, appState := .READY }, 0, []⟩
  | a :: rest, acc, s =>
    if a = 0 then sweepLoop orig gen ids rest acc s
    else
      match gen a with
      | .ok dataUrl =>
        let img : SceneImage :=
          { id := ids a, data := dataUrl, mimeType := "image/png",
            angle := a, isOriginal := false }
        let acc2 := acc ++ [img]
        let write := sortByAngle acc2
        let r := sweepLoop orig gen ids rest acc2 { s with sequenceImages := write }
        ⟨r.state, r.calls + 1, write :: r.storeWrites⟩
      | .error msg =>
        ⟨{ s with error := some ("La generación de secuencia se detuvo: " ++ msg),
                  appState := .ERROR }, 1, []⟩

/-- handleGenerateSequence of App.tsx: seeds the accumulator with the
original and runs the sweep loop over the eight planned angles. -/
def handleGenerateSequence (s : AppModel) (gen : Int → Except String String)
    (ids : Int → Nat) : SweepResult :=
  sweepLoop s.originalImage gen ids sweepAngles [s.originalImage]
    { s with appState := .GENERATING_SEQUENCE, error := none }

/-- One user-level operation on the post-upload state, with its oracle
outcomes baked in. -/
inductive Op where
  | upload (fileSize freshId : Nat) (dataUrl mime : String)
  | release (finalAngle : Int) (gen : Except String String) (freshId : Nat)
  | sweep (gen : Int → Except String String) (ids : Int → Nat)
  | enhance (gen : Except String String) (freshId : Nat)
  | removeBg (gen : Except String String) (freshId : Nat)

/-- The upload branch of Op dispatch: a rejected (oversized) file only
sets the error banner; an accepted file resets the whole state. -/
def applyUpload (s : AppModel) (size fid : Nat) (d m : String) : AppModel :=
  match handleFileChange size fid d m with
  | some s2 => s2
  | none => { s with error := some "El archivo es demasiado grande. Por favor usa una imagen menor a 5MB." }

/-- Apply one operation to the application state. -/
def applyOp (s : AppModel) : Op → AppModel
  | .upload size fid d m => applyUpload s size fid d m
  | .release a gen fid => (handleAngleRelease s a gen fid).state
  | .sweep gen ids => (handleGenerateSequence s gen ids).state
  | .enhance gen fid => handleEnhancement s gen fid
  | .removeBg gen fid => handleRemoveBackground s gen fid

/-- Apply a sequence of operations in order. -/
def applyOps (s : AppModel) (ops : List Op) : AppModel := ops.foldl applyOp s

/-- The images reachable in the application state: the original reference,
the currently displayed image, and the sequence store. -/
def reachable (s : AppModel) : List SceneImage :=
  s.originalImage :: s.currentImage :: s.sequenceImages

/-- Exactly one reachable image carries isOriginal = true, namely the
uploaded original: the original is flagged, and any reachable flagged
image is the original. -/
def OriginalInvariant (s : AppModel) : Prop :=
  s.originalImage.isOriginal = true ∧
  ∀ img ∈ reachable s, img.isOriginal = true → img = s.originalImage

/-- Claim C2: if some cached SceneImage has an angle within 10 degrees of
the requested angle, then handleAngleRelease returns a cached image within
that tolerance, issues no remote generation call, and leaves the store
unchanged. -/
theorem C2_cache_hit_no_network (s : AppModel) (a : Int) (gen : Except String String)
    (fid : Nat) (hex : ∃ img ∈ s.sequenceImages, (img.angle - a).natAbs < 10) :
    (handleAngleRelease s a gen fid).remoteCalls = 0 ∧
    (handleAngleRelease s a gen fid).state.sequenceImages = s.sequenceImages ∧
    (handleAngleRelease s a gen fid).state.currentImage ∈ s.sequenceImages ∧
    ((handleAngleRelease s a gen fid).state.currentImage.angle - a).natAbs < 10 := by
  obtain ⟨x, hx, hpx⟩ := hex
  have hsome : (s.sequenceImages.find?
      (fun img => decide ((img.angle - a).natAbs < 10))).isSome := by
    rw [List.find?_isSome]
    exact ⟨x, hx, by simpa using hpx⟩
  obtain ⟨y, hy⟩ := Option.isSome_iff_exists.mp hsome
  have hyp : (y.angle - a).natAbs < 10 := by simpa using List.find?_some hy
  have hymem := List.mem_of_find?_eq_some hy
  unfold handleAngleRelease
  rw [hy]
  exact ⟨rfl, rfl, hymem, hyp⟩

/-- Sample concrete images and state used by witnesses. -/
def sampleOriginal : SceneImage := ⟨0, "o", "image/png", 0, true⟩

/-- A sample generated variant at angle 100. -/
def sampleVariant : SceneImage := ⟨1, "v", "image/png", 100, false⟩

/-- A sample post-upload state whose store holds the original and one
variant at angle 100. -/
def sampleState : AppModel :=
  { originalImage := sampleOriginal, currentImage := sampleOriginal,
    sequenceImages := [sampleOriginal, sampleVariant],
    error := none, appState := .READY }

/-- Witness for C2 at a concrete input: a store holding a variant at angle
100, requested angle 95. -/
theorem C2_cache_hit_no_network_witness :
    (∃ img ∈ sampleState.sequenceImages, (img.angle - 95).natAbs < 10) ∧
    ((handleAngleRelease sampleState 95 (.ok "g") 2).remoteCalls = 0 ∧
      (handleAngleRelease sampleState 95 (.ok "g") 2).state.sequenceImages =
        sampleState.sequenceImages ∧
      (handleAngleRelease sampleState 95 (.ok "g") 2).state.currentImage ∈
        sampleState.sequenceImages ∧
      ((handleAngleRelease sampleState 95 (.ok "g") 2).state.currentImage.angle -
        95).natAbs < 10) :=
  ⟨⟨sampleVariant, by decide, by decide⟩,
   C2_cache_hit_no_network sampleState 95 (.ok "g") 2
     ⟨sampleVariant, by decide, by decide⟩⟩

/-- Claim C3 counterexample: with a freshly seeded store, requesting
exactly 10 degrees (which is within 10 degrees of 0 measured circularly,
since 10 is at most 10) issues one remote generation call and does not
return the original, contradicting the claim that every such angle
returns the original with no network call. -/
theorem C3_counterexample :
    (10 : Int) ≤ 10 ∧
    (handleAngleRelease sampleState 10 (.ok "g") 2).remoteCalls = 1 ∧
    (handleAngleRelease sampleState 10 (.ok "g") 2).state.currentImage ≠
      sampleState.originalImage := by decide

/-- Claim C3 (amended): for every requested angle strictly below 10 or
strictly above 350, handleAngleRelease issues no remote generation call
and leaves the store unchanged; it returns a cached image within 10
degrees of the request when one exists, and the original otherwise. -/
theorem C3_near_zero_amended (s : AppModel) (a : Int) (gen : Except String String)
    (fid : Nat) (ha : a < 10 ∨ 350 < a) :
    (handleAngleRelease s a gen fid).remoteCalls = 0 ∧
    (handleAngleRelease s a gen fid).state.sequenceImages = s.sequenceImages ∧
    ((handleAngleRelease s a gen fid).state.currentImage = s.originalImage ∨
      ((handleAngleRelease s a gen fid).state.currentImage ∈ s.sequenceImages ∧
        ((handleAngleRelease s a gen fid).state.currentImage.angle - a).natAbs < 10)) := by
  unfold handleAngleRelease
  cases hf : s.sequenceImages.find? (fun img => decide ((img.angle - a).natAbs < 10)) with
  | some y =>
    exact ⟨rfl, rfl, Or.inr ⟨List.mem_of_find?_eq_some hf, by simpa using List.find?_some hf⟩⟩
  | none =>
    rw [if_pos (Or.symm ha)]
    exact ⟨rfl, rfl, Or.inl rfl⟩

/-- Witness for the amended C3 at the concrete angle 5 on the sample
state. -/
theorem C3_near_zero_amended_witness :
    ((5 : Int) < 10 ∨ (350 : Int) < 5) ∧
    ((handleAngleRelease sampleState 5 (.ok "g") 2).remoteCalls = 0 ∧
      (handleAngleRelease sampleState 5 (.ok "g") 2).state.sequenceImages =
        sampleState.sequenceImages ∧
      ((handleAngleRelease sampleState 5 (.ok "g") 2).state.currentImage =
          sampleState.originalImage ∨
        ((handleAngleRelease sampleState 5 (.ok "g") 2).state.currentImage ∈
            sampleState.sequenceImages ∧
          ((handleAngleRelease sampleState 5 (.ok "g") 2).state.currentImage.angle -
            5).natAbs < 10))) :=
  ⟨Or.inl (by decide), C3_near_zero_amended sampleState 5 (.ok "g") 2 (Or.inl (by decide))⟩

/-- The store written by a successful enhancement is the pointwise
replacement of entries within 1 degree of the current angle. -/
theorem handleEnhancement_seq_eq (s : AppModel) (d : String) (fid : Nat) :
    (handleEnhancement s (.ok d) fid).sequenceImages =
      s.sequenceImages.map (fun img =>
        if (img.angle - s.currentImage.angle).natAbs < 1 then
          ⟨fid, d, "image/png", s.currentImage.angle, false⟩
        else img) := by
  cases hl : s.sequenceImages with
  | nil => simp [handleEnhancement, hl]
  | cons x xs => simp [handleEnhancement, hl]

/-- Claim C5: a successful enhancement produces an image at the
pre-enhancement current angle, not marked original; the store becomes the
pointwise replacement of the entries within the 1-degree replacement
tolerance by that image (nothing is appended), so its length is
unchanged. -/
theorem C5_enhancement_replaces (s : AppModel) (d : String) (fid : Nat) :
    (handleEnhancement s (.ok d) fid).currentImage.angle = s.currentImage.angle ∧
    (handleEnhancement s (.ok d) fid).currentImage.isOriginal = false ∧
    (handleEnhancement s (.ok d) fid).sequenceImages.length =
      s.sequenceImages.length ∧
    (handleEnhancement s (.ok d) fid).sequenceImages =
      s.sequenceImages.map (fun img =>
        if (img.angle - s.currentImage.angle).natAbs < 1 then
          (handleEnhancement s (.ok d) fid).currentImage
        else img) := by
  refine ⟨rfl, rfl, ?_, ?_⟩
  · rw [handleEnhancement_seq_eq, List.length_map]
  · rw [handleEnhancement_seq_eq]
    rfl

/-- Replacing entries within 1 integer degree of cur by an image at angle
cur preserves each element angle. -/
theorem replace_preserves_angle (cur : Int) (new : SceneImage) (hnew : new.angle = cur)
    (x : SceneImage) :
    (if (x.angle - cur).natAbs < 1 then new else x).angle = x.angle := by
  split
  · next h => rw [hnew]; omega
  · rfl

/-- The enhancement replacement map preserves sortedness of the store. -/
theorem sorted_map_replace (cur : Int) (new : SceneImage) (hnew : new.angle = cur)
    {l : List SceneImage} (hl : SortedStore l) :
    SortedStore (l.map (fun img => if (img.angle - cur).natAbs < 1 then new else img)) := by
  refine List.Pairwise.map _ ?_ hl
  intro a b hab
  unfold byAngle at *
  rw [replace_preserves_angle cur new hnew a, replace_preserves_angle cur new hnew b]
  exact hab

/-- Every value the sweep loop writes to the store is sorted (each write
is an application of sortByAngle). -/
theorem sweepLoop_writes_sorted (orig : SceneImage) (gen : Int → Except String String)
    (ids : Int → Nat) (angles : List Int) :
    ∀ (acc : List SceneImage) (s : AppModel),
      ∀ w ∈ (sweepLoop orig gen ids angles acc s).storeWrites, SortedStore w := by
  induction angles with
  | nil => intro acc s w hw; simp [sweepLoop] at hw
  | cons a rest ih =>
    intro acc s w hw
    by_cases ha : a = 0
    · rw [sweepLoop, if_pos ha] at hw
      exact ih acc s w hw
    · rw [sweepLoop, if_neg ha] at hw
      cases hg : gen a with
      | ok dataUrl =>
        rw [hg] at hw
        simp only [List.mem_cons] at hw
        rcases hw with rfl | hw
        · exact sortByAngle_sorted _
        · exact ih _ _ w hw
      | error msg =>
        rw [hg] at hw
        simp at hw

/-- Claim C4: the sequence store is sorted by angle ascending after every
inserting or replacing operation: after upload seeding, after a
single-angle generation, after each incremental sweep write, and after an
enhancement replacement (the latter two preserve an already sorted
store). -/
theorem C4_store_sorted :
    (∀ size fid d m s, handleFileChange size fid d m = some s →
        SortedStore s.sequenceImages) ∧
    (∀ s a gen fid, SortedStore s.sequenceImages →
        SortedStore (handleAngleRelease s a gen fid).state.sequenceImages) ∧
    (∀ s gen ids, ∀ w ∈ (handleGenerateSequence s gen ids).storeWrites, SortedStore w) ∧
    (∀ s gen fid, SortedStore s.sequenceImages →
        SortedStore (handleEnhancement s gen fid).sequenceImages) := by
  refine ⟨?_, ?_, ?_, ?_⟩
  · intro size fid d m s h
    unfold handleFileChange at h
    split at h
    · exact absurd h (by simp)
    · obtain rfl := Option.some.inj h
      exact List.sorted_singleton _
  · intro s a gen fid hs
    unfold handleAngleRelease
    cases hf : s.sequenceImages.find?
        (fun img => decide ((img.angle - a).natAbs < 10)) with
    | some y => exact hs
    | none =>
      by_cases hrange : 350 < a ∨ a < 10
      · rw [if_pos hrange]
        exact hs
      · rw [if_neg hrange]
        cases gen with
        | ok dataUrl => exact sortByAngle_sorted _
        | error msg => exact hs
  · intro s gen ids w hw
    exact sweepLoop_writes_sorted _ _ _ _ _ _ w hw
  · intro s gen fid hs
    cases gen with
    | ok dataUrl =>
      rw [handleEnhancement_seq_eq]
      exact sorted_map_replace s.currentImage.angle
        ⟨fid, dataUrl, "image/png", s.currentImage.angle, false⟩ rfl hs
    | error msg => exact hs

/-- Witness for C4: each conjunct applied at concrete inputs (the sample
state store is sorted). -/
theorem C4_store_sorted_witness :
    (handleFileChange 100 0 "o" "image/png" = some
        { originalImage := sampleOriginal, currentImage := sampleOriginal,
          sequenceImages := [sampleOriginal], error := none, appState := .READY } ∧
      SortedStore ({ originalImage := sampleOriginal, currentImage := sampleOriginal,
                     sequenceImages := [sampleOriginal], error := none,
                     appState := .READY } : AppModel).sequenceImages) ∧
    (SortedStore sampleState.sequenceImages ∧
      SortedStore (handleAngleRelease sampleState 200 (.ok "g") 2).state.sequenceImages) ∧
    (SortedStore sampleState.sequenceImages ∧
      SortedStore (handleEnhancement sampleState (.ok "e") 3).sequenceImages) :=
  ⟨⟨by decide, C4_store_sorted.1 100 0 "o" "image/png" _ (by decide)⟩,
   ⟨by decide, C4_store_sorted.2.1 sampleState 200 (.ok "g") 2 (by decide)⟩,
   ⟨by decide, C4_store_sorted.2.2.2 sampleState (.ok "e") 3 (by decide)⟩⟩

/-- Claim C1 (amended): for every sweep whose k-th remote generation call
fails while the first k - 1 succeed, exactly k remote calls are issued
(none after the failure) and the descriptive error is surfaced; when
k is at least 2 the store afterwards holds exactly the original plus the
k - 1 variants that succeeded (sorted, k entries in total), regardless of
the pre-sweep store; when k = 1 the store keeps its pre-sweep contents
(which is exactly the original when the sweep starts from a freshly
seeded store), because the loop writes the store only after a success. -/
theorem C1_sweep_partial_failure (s : AppModel) (gen : Int → Except String String)
    (ids : Int → Nat) (d : Nat → String) (m : String) (k : Nat)
    (hk1 : 1 ≤ k) (hk7 : k ≤ 7)
    (hok : ∀ i, i < k - 1 → gen (remoteAngles.getD i 0) = .ok (d i))
    (hfail : gen (remoteAngles.getD (k - 1) 0) = .error m) :
    (handleGenerateSequence s gen ids).calls = k ∧
    (handleGenerateSequence s gen ids).state.error =
      some ("La generación de secuencia se detuvo: " ++ m) ∧
    (k = 1 → (handleGenerateSequence s gen ids).state.sequenceImages = s.sequenceImages) ∧
    (2 ≤ k →
      (handleGenerateSequence s gen ids).state.sequenceImages =
        sortByAngle (s.originalImage :: (List.range (k - 1)).map (fun i =>
          ⟨ids (remoteAngles.getD i 0), d i, "image/png", remoteAngles.getD i 0, false⟩)) ∧
      (handleGenerateSequence s gen ids).state.sequenceImages.length = k) := by
  interval_cases k
  · have hf : gen 45 = .error m := hfail
    simp [handleGenerateSequence, sweepAngles, sweepLoop, hf]
  · have h0 : gen 45 = .ok (d 0) := hok 0 (by omega)
    have hf : gen 90 = .error m := hfail
    simp [handleGenerateSequence, sweepAngles, sweepLoop, h0, hf, sortByAngle_length,
      remoteAngles, List.range_succ]
  · have h0 : gen 45 = .ok (d 0) := hok 0 (by omega)
    have h1 : gen 90 = .ok (d 1) := hok 1 (by omega)
    have hf : gen 135 = .error m := hfail
    simp [handleGenerateSequence, sweepAngles, sweepLoop, h0, h1, hf, sortByAngle_length,
      remoteAngles, List.range_succ]
  · have h0 : gen 45 = .ok (d 0) := hok 0 (by omega)
    have h1 : gen 90 = .ok (d 1) := hok 1 (by omega)
    have h2 : gen 135 = .ok (d 2) := hok 2 (by omega)
    have hf : gen 180 = .error m := hfail
    simp [handleGenerateSequence, sweepAngles, sweepLoop, h0, h1, h2, hf, sortByAngle_length,
      remoteAngles, List.range_succ]
  · have h0 : gen 45 = .ok (d 0) := hok 0 (by omega)
    have h1 : gen 90 = .ok (d 1) := hok 1 (by omega)
    have h2 : gen 135 = .ok (d 2) := hok 2 (by omega)
    have h3 : gen 180 = .ok (d 3) := hok 3 (by omega)
    have hf : gen 225 = .error m := hfail
    simp [handleGenerateSequence, sweepAngles, sweepLoop, h0, h1, h2, h3, hf,
      sortByAngle_length, remoteAngles, List.range_succ]
  · have h0 : gen 45 = .ok (d 0) := hok 0 (by omega)
    have h1 : gen 90 = .ok (d 1) := hok 1 (by omega)
    have h2 : gen 135 = .ok (d 2) := hok 2 (by omega)
    have h3 : gen 180 = .ok (d 3) := hok 3 (by omega)
    have h4 : gen 225 = .ok (d 4) := hok 4 (by omega)
    have hf : gen 270 = .error m := hfail
    simp [handleGenerateSequence, sweepAngles, sweepLoop, h0, h1, h2, h3, h4, hf,
      sortByAngle_length, remoteAngles, List.range_succ]
  · have h0 : gen 45 = .ok (d 0) := hok 0 (by omega)
    have h1 : gen 90 = .ok (d 1) := hok 1 (by omega)
    have h2 : gen 135 = .ok (d 2) := hok 2 (by omega)
    have h3 : gen 180 = .ok (d 3) := hok 3 (by omega)
    have h4 : gen 225 = .ok (d 4) := hok 4 (by omega)
    have h5 : gen 270 = .ok (d 5) := hok 5 (by omega)
    have hf : gen 315 = .error m := hfail
    simp [handleGenerateSequence, sweepAngles, sweepLoop, h0, h1, h2, h3, h4, h5, hf,
      sortByAngle_length, remoteAngles, List.range_succ]

/-- A freshly uploaded post-upload state: the store holds the original
alone. -/
def freshState : AppModel :=
  { originalImage := sampleOriginal, currentImage := sampleOriginal,
    sequenceImages := [sampleOriginal], error := none, appState := .READY }

/-- A concrete sweep oracle that succeeds with payload g on every angle
except 180, where it fails. -/
def sampleSweepGen : Int → Except String String :=
  fun a => if a = 180 then .error "boom" else .ok "g"

/-- Claim C1 counterexample: a sweep started from a store that already
holds a generated variant (here at angle 100) and whose first remote call
fails issues one call and keeps the pre-sweep store, so the store is not
exactly the original plus the zero variants that succeeded before the
failure, contradicting the claim as stated for a first-call failure. -/
theorem C1_counterexample :
    (handleGenerateSequence sampleState (fun _ => .error "boom") (fun _ => 7)).calls = 1 ∧
    (handleGenerateSequence sampleState (fun _ => .error "boom") (fun _ => 7)).state.error =
      some ("La generación de secuencia se detuvo: " ++ "boom") ∧
    (handleGenerateSequence sampleState (fun _ => .error "boom")
        (fun _ => 7)).state.sequenceImages = [sampleOriginal, sampleVariant] ∧
    (handleGenerateSequence sampleState (fun _ => .error "boom")
        (fun _ => 7)).state.sequenceImages ≠ [sampleState.originalImage] := by decide

/-- Witness for the amended C1: the fourth remote call (angle 180) fails,
exactly 4 calls are issued, and the store ends with the original plus the
3 variants that succeeded. -/
theorem C1_sweep_partial_failure_witness :
    ((1 : Nat) ≤ 4 ∧ (4 : Nat) ≤ 7) ∧
    (∀ i, i < 4 - 1 → sampleSweepGen (remoteAngles.getD i 0) = .ok ((fun _ => "g") i)) ∧
    sampleSweepGen (remoteAngles.getD (4 - 1) 0) = .error "boom" ∧
    ((handleGenerateSequence freshState sampleSweepGen (fun _ => 7)).calls = 4 ∧
      (handleGenerateSequence freshState sampleSweepGen (fun _ => 7)).state.error =
        some ("La generación de secuencia se detuvo: " ++ "boom") ∧
      ((4 : Nat) = 1 →
        (handleGenerateSequence freshState sampleSweepGen (fun _ => 7)).state.sequenceImages =
          freshState.sequenceImages) ∧
      ((2 : Nat) ≤ 4 →
        (handleGenerateSequence freshState sampleSweepGen (fun _ => 7)).state.sequenceImages =
          sortByAngle (freshState.originalImage :: (List.range (4 - 1)).map (fun i =>
            ⟨(fun _ => 7) (remoteAngles.getD i 0), (fun _ => "g") i, "image/png",
              remoteAngles.getD i 0, false⟩)) ∧
        (handleGenerateSequence freshState sampleSweepGen
            (fun _ => 7)).state.sequenceImages.length = 4)) :=
  ⟨⟨by decide, by decide⟩, by intro i hi; interval_cases i <;> rfl, rfl,
   C1_sweep_partial_failure freshState sampleSweepGen (fun _ => 7) (fun _ => "g") "boom" 4
     (by decide) (by decide) (by intro i hi; interval_cases i <;> rfl) rfl⟩

/-- A successful upload establishes the unique-original invariant. -/
theorem originalInvariant_upload (size fid : Nat) (dUrl mime : String) (s0 : AppModel)
    (h : handleFileChange size fid dUrl mime = some s0) : OriginalInvariant s0 := by
  unfold handleFileChange at h
  split at h
  · exact absurd h (by simp)
  · obtain rfl := Option.some.inj h
    refine ⟨rfl, ?_⟩
    intro img hm hflag
    simp only [reachable, List.mem_cons] at hm
    rcases hm with rfl | rfl | hm
    · rfl
    · rfl
    · rcases hm with rfl | hm
      · rfl
      · exact absurd hm (List.not_mem_nil _)

/-- handleAngleRelease preserves the unique-original invariant. -/
theorem originalInvariant_release (s : AppModel) (a : Int) (gen : Except String String)
    (fid : Nat) (h : OriginalInvariant s) :
    OriginalInvariant (handleAngleRelease s a gen fid).state := by
  obtain ⟨h1, h2⟩ := h
  unfold handleAngleRelease
  cases hf : s.sequenceImages.find? (fun img => decide ((img.angle - a).natAbs < 10)) with
  | some y =>
    refine ⟨h1, ?_⟩
    intro img hm hflag
    simp only [reachable, List.mem_cons] at hm
    rcases hm with rfl | rfl | hm
    · rfl
    · exact h2 _ (by simp [reachable, List.mem_of_find?_eq_some hf]) hflag
    · exact h2 _ (by simp [reachable, hm]) hflag
  | none =>
    by_cases hrange : 350 < a ∨ a < 10
    · rw [if_pos hrange]
      refine ⟨h1, ?_⟩
      intro img hm hflag
      simp only [reachable, List.mem_cons] at hm
      rcases hm with rfl | rfl | hm
      · rfl
      · rfl
      · exact h2 _ (by simp [reachable, hm]) hflag
    · rw [if_neg hrange]
      cases gen with
      | ok dataUrl =>
        refine ⟨h1, ?_⟩
        intro img hm hflag
        simp only [reachable, List.mem_cons] at hm
        rcases hm with rfl | rfl | hm
        · rfl
        · exact absurd hflag (by simp)
        · rw [mem_sortByAngle, List.mem_append] at hm
          rcases hm with hm | hm
          · exact h2 _ (by simp [reachable, hm]) hflag
          · rw [List.mem_singleton] at hm
            subst hm
            exact absurd hflag (by simp)
      | error msg =>
        exact ⟨h1, h2⟩

/-- handleEnhancement preserves the unique-original invariant. -/
theorem originalInvariant_enhance (s : AppModel) (gen : Except String String)
    (fid : Nat) (h : OriginalInvariant s) :
    OriginalInvariant (handleEnhancement s gen fid) := by
  obtain ⟨h1, h2⟩ := h
  cases gen with
  | ok dataUrl =>
    refine ⟨h1, ?_⟩
    intro img hm hflag
    have hseq := handleEnhancement_seq_eq s dataUrl fid
    simp only [reachable, List.mem_cons] at hm
    rcases hm with rfl | hm
    · rfl
    · rcases hm with hm | hm
      · rw [hm] at hflag
        exact absurd hflag (by simp [handleEnhancement])
      · rw [hseq, List.mem_map] at hm
        obtain ⟨x, hx, hxeq⟩ := hm
        by_cases hrep : (x.angle - s.currentImage.angle).natAbs < 1
        · rw [if_pos hrep] at hxeq
          subst hxeq
          exact absurd hflag (by simp)
        · rw [if_neg hrep] at hxeq
          subst hxeq
          exact h2 _ (by simp [reachable, hx]) hflag
  | error msg =>
    exact ⟨h1, h2⟩

/-- handleRemoveBackground preserves the unique-original invariant. -/
theorem originalInvariant_removeBg (s : AppModel) (gen : Except String String)
    (fid : Nat) (h : OriginalInvariant s) :
    OriginalInvariant (handleRemoveBackground s gen fid) := by
  obtain ⟨h1, h2⟩ := h
  cases gen with
  | ok dataUrl =>
    refine ⟨h1, ?_⟩
    intro img hm hflag
    simp only [reachable, List.mem_cons] at hm
    rcases hm with rfl | hm
    · rfl
    · rcases hm with hm | hm
      · rw [hm] at hflag
        exact absurd hflag (by simp [handleRemoveBackground])
      · by_cases hlen : 0 < s.sequenceImages.length
        · rw [show (handleRemoveBackground s (.ok dataUrl) fid).sequenceImages =
            s.sequenceImages.map (fun img =>
              if (img.angle - s.currentImage.angle).natAbs < 1 then
                ⟨fid, dataUrl, "image/png", s.currentImage.angle, false⟩
              else img) from by simp [handleRemoveBackground, if_pos hlen]] at hm
          rw [List.mem_map] at hm
          obtain ⟨x, hx, hxeq⟩ := hm
          by_cases hrep : (x.angle - s.currentImage.angle).natAbs < 1
          · rw [if_pos hrep] at hxeq
            subst hxeq
            exact absurd hflag (by simp)
          · rw [if_neg hrep] at hxeq
            subst hxeq
            exact h2 _ (by simp [reachable, hx]) hflag
        · rw [show (handleRemoveBackground s (.ok dataUrl) fid).sequenceImages =
            s.sequenceImages from by simp [handleRemoveBackground, if_neg hlen]] at hm
          exact h2 _ (by simp [reachable, hm]) hflag
  | error msg =>
    exact ⟨h1, h2⟩


/-- The sweep loop preserves the unique-original invariant, provided every
flagged accumulator entry is the original. -/
theorem originalInvariant_sweepLoop (gen : Int → Except String String)
    (ids : Int → Nat) (angles : List Int) :
    ∀ (orig : SceneImage) (acc : List SceneImage) (s : AppModel),
      s.originalImage = orig →
      (∀ x ∈ acc, x.isOriginal = true → x = orig) →
      OriginalInvariant s →
      OriginalInvariant (sweepLoop orig gen ids angles acc s).state := by
  induction angles with
  | nil =>
    intro orig acc s hso hacc hs
    obtain ⟨h1, h2⟩ := hs
    rw [sweepLoop]
    refine ⟨h1, ?_⟩
    intro img hm hflag
    simp only [reachable, List.mem_cons] at hm
    rcases hm with rfl | rfl | hm
    · rfl
    · exact hso.symm
    · exact h2 _ (by simp [reachable, hm]) hflag
  | cons a rest ih =>
    intro orig acc s hso hacc hs
    rw [sweepLoop]
    by_cases ha : a = 0
    · rw [if_pos ha]
      exact ih orig acc s hso hacc hs
    · rw [if_neg ha]
      cases hg : gen a with
      | ok dataUrl =>
        show OriginalInvariant (sweepLoop orig gen ids rest
          (acc ++ [⟨ids a, dataUrl, "image/png", a, false⟩])
          { s with sequenceImages :=
              sortByAngle (acc ++ [⟨ids a, dataUrl, "image/png", a, false⟩]) }).state
        refine ih orig _ _ hso ?_ ?_
        · intro x hx hxflag
          rw [List.mem_append] at hx
          rcases hx with hx | hx
          · exact hacc x hx hxflag
          · rw [List.mem_singleton] at hx
            subst hx
            exact absurd hxflag (by simp)
        · obtain ⟨h1, h2⟩ := hs
          refine ⟨h1, ?_⟩
          intro img hm hflag
          simp only [reachable, List.mem_cons] at hm
          rcases hm with rfl | rfl | hm
          · rfl
          · exact h2 _ (by simp [reachable]) hflag
          · rw [mem_sortByAngle, List.mem_append] at hm
            rcases hm with hm | hm
            · show img = s.originalImage
              rw [hso]
              exact hacc _ hm hflag
            · rw [List.mem_singleton] at hm
              subst hm
              exact absurd hflag (by simp)
      | error msg =>
        obtain ⟨h1, h2⟩ := hs
        exact ⟨h1, h2⟩

/-- Every operation preserves the unique-original invariant. -/
theorem originalInvariant_applyOp (s : AppModel) (op : Op)
    (h : OriginalInvariant s) : OriginalInvariant (applyOp s op) := by
  cases op with
  | upload size fid dUrl mime =>
    show OriginalInvariant (applyUpload s size fid dUrl mime)
    unfold applyUpload
    cases hc : handleFileChange size fid dUrl mime with
    | some s2 => exact originalInvariant_upload size fid dUrl mime s2 hc
    | none => exact ⟨h.1, h.2⟩
  | release a gen fid => exact originalInvariant_release s a gen fid h
  | sweep gen ids =>
    show OriginalInvariant (handleGenerateSequence s gen ids).state
    unfold handleGenerateSequence
    refine originalInvariant_sweepLoop gen ids sweepAngles s.originalImage
      [s.originalImage] _ rfl ?_ ⟨h.1, h.2⟩
    intro x hx hxflag
    rw [List.mem_singleton] at hx
    exact hx
  | enhance gen fid => exact originalInvariant_enhance s gen fid h
  | removeBg gen fid => exact originalInvariant_removeBg s gen fid h

/-- Any sequence of operations preserves the unique-original invariant. -/
theorem originalInvariant_applyOps (s : AppModel) (ops : List Op)
    (h : OriginalInvariant s) : OriginalInvariant (applyOps s ops) := by
  induction ops generalizing s with
  | nil => exact h
  | cons op rest ih => exact ih (applyOp s op) (originalInvariant_applyOp s op h)

/-- Claim C6: starting from any successful upload and applying any
sequence of operations (further uploads, single-angle generations, full
sweeps, enhancements, background removals, with any oracle outcomes),
exactly one reachable SceneImage has isOriginal = true: the original is
flagged, and every reachable flagged image is the original (all generated
and enhanced images carry isOriginal = false). -/
theorem C6_unique_original (size fid : Nat) (dUrl mime : String) (s0 : AppModel)
    (h : handleFileChange size fid dUrl mime = some s0) (ops : List Op) :
    OriginalInvariant (applyOps s0 ops) :=
  originalInvariant_applyOps s0 ops (originalInvariant_upload size fid dUrl mime s0 h)

/-- Witness for C6: a concrete upload followed by a failing sweep, an
enhancement, and a single-angle generation. -/
theorem C6_unique_original_witness :
    handleFileChange 100 0 "o" "image/png" = some freshState ∧
    OriginalInvariant (applyOps freshState
      [Op.sweep sampleSweepGen (fun _ => 7), Op.enhance (.ok "e") 8,
        Op.release 200 (.ok "g") 9]) :=
  ⟨rfl, C6_unique_original 100 0 "o" "image/png" freshState rfl
    [Op.sweep sampleSweepGen (fun _ => 7), Op.enhance (.ok "e") 8,
      Op.release 200 (.ok "g") 9]⟩

/-- Truncated remainder negates with its dividend (JavaScript remainder
takes the sign of the dividend). -/
theorem neg_tmod_left (a b : Int) : Int.tmod (-a) b = - Int.tmod a b := by
  rw [Int.tmod_def, Int.tmod_def, Int.neg_tdiv]
  ring

/-- Lower bound for truncated remainder by a positive divisor. -/
theorem tmod_gt_neg (a : Int) {n : Int} (hn : 0 < n) : -n < Int.tmod a n := by
  rcases le_or_lt 0 a with ha | ha
  · have h := Int.tmod_nonneg n ha
    omega
  · have h1 : Int.tmod a n = - Int.tmod (-a) n := by
      rw [← neg_tmod_left]
      simp
    have h2 : Int.tmod (-a) n < n := Int.tmod_lt_of_pos (-a) hn
    omega

/-- The rotating branch of handleMouseMove in ImageDisplay.tsx: steps is
Math.floor(deltaX / sensitivity) with sensitivity 5; the new index is
(startIndex - steps) taken with the JavaScript remainder operator modulo
the store size, shifted by the store size when negative. -/
def handleMouseMoveIndex (startIndex deltaX : Int) (n : Nat) : Int :=
  let steps := ⌊(deltaX : ℚ) / 5⌋
  let newIndex := Int.tmod (startIndex - steps) (n : Int)
  if newIndex < 0 then newIndex + (n : Int) else newIndex

/-- Claim C9: for every starting index, every drag delta, and every
non-empty store, the scrub index lies in [0, store length), so indexing
the sequence array never goes out of bounds. -/
theorem C9_scrub_index_in_bounds (startIndex deltaX : Int) (n : Nat) (hn : 1 ≤ n) :
    0 ≤ handleMouseMoveIndex startIndex deltaX n ∧
    handleMouseMoveIndex startIndex deltaX n < (n : Int) := by
  have hn0 : (0 : Int) < (n : Int) := by exact_mod_cast hn
  have h1 : Int.tmod (startIndex - ⌊(deltaX : ℚ) / 5⌋) (n : Int) < (n : Int) :=
    Int.tmod_lt_of_pos _ hn0
  have h2 : -(n : Int) < Int.tmod (startIndex - ⌊(deltaX : ℚ) / 5⌋) (n : Int) :=
    tmod_gt_neg _ hn0
  simp only [handleMouseMoveIndex]
  by_cases hc : Int.tmod (startIndex - ⌊(deltaX : ℚ) / 5⌋) (n : Int) < 0
  · rw [if_pos hc]
    omega
  · rw [if_neg hc]
    omega

/-- Witness for C9 at a concrete negative drag over a 3-image store. -/
theorem C9_scrub_index_in_bounds_witness :
    (1 : Nat) ≤ 3 ∧
    (0 ≤ handleMouseMoveIndex 2 (-13) 3 ∧ handleMouseMoveIndex 2 (-13) 3 < (3 : Int)) :=
  ⟨by decide, C9_scrub_index_in_bounds 2 (-13) 3 (by decide)⟩

/-- Claim C8: over an 8-image sequence at zoom 1, dragging exactly
8 * sensitivity pixels (sensitivity 5) brings the index back to its
starting value: the step count is the drag distance divided by the
sensitivity and the offset wraps modulo the store size. -/
theorem C8_full_wrap (startIndex : Int) (h0 : 0 ≤ startIndex) (h8 : startIndex < 8) :
    handleMouseMoveIndex startIndex (8 * 5) 8 = startIndex := by
  simp only [handleMouseMoveIndex]
  have hcast : (((8 * 5 : Int) : ℚ)) / 5 = ((8 : Int) : ℚ) := by
    push_cast
    norm_num
  rw [hcast, Int.floor_intCast]
  interval_cases startIndex <;> decide

/-- Witness for C8 at starting index 5. -/
theorem C8_full_wrap_witness :
    (0 : Int) ≤ 5 ∧ (5 : Int) < 8 ∧ handleMouseMoveIndex 5 (8 * 5) 8 = 5 :=
  ⟨by decide, by decide, C8_full_wrap 5 (by decide) (by decide)⟩

/-- Truncation toward zero, as used by the JavaScript remainder operator. -/
def jsTrunc (x : ℚ) : Int := if 0 ≤ x then ⌊x⌋ else ⌈x⌉

/-- The JavaScript remainder operator on numbers: x % y has the sign of x
and satisfies x % y = x - y * trunc(x / y). -/
def jsFmod (x y : ℚ) : ℚ := x - y * (jsTrunc (x / y) : ℚ)

/-- getAngleDescription of services/geminiService.ts: normalizes the angle
with (angle % 360 + 360) % 360 and buckets it into one of four cardinal
camera descriptions, with an oblique-angle fallback. -/
def getAngleDescription (angle : ℚ) : String :=
  let normAngle := jsFmod (jsFmod angle 360 + 360) 360
  if 315 ≤ normAngle ∨ normAngle < 45 then "Frente (0°). Cámara frontal."
  else if 45 ≤ normAngle ∧ normAngle < 135 then
    "Perfil Derecho (90°). Cámara a la derecha del sujeto."
  else if 135 ≤ normAngle ∧ normAngle < 225 then
    "Espalda (180°). Cámara detrás del sujeto."
  else if 225 ≤ normAngle ∧ normAngle < 315 then
    "Perfil Izquierdo (270°). Cámara a la izquierda del sujeto."
  else "Ángulo oblicuo " ++ toString angle ++ "°."

/-- jsFmod unfolded in the nonnegative-quotient case. -/
theorem jsFmod_of_nonneg (x y : ℚ) (h : 0 ≤ x / y) :
    jsFmod x y = x - y * (⌊x / y⌋ : ℚ) := by
  rw [jsFmod, jsTrunc, if_pos h]

/-- jsFmod unfolded in the negative-quotient case. -/
theorem jsFmod_of_neg (x y : ℚ) (h : ¬0 ≤ x / y) :
    jsFmod x y = x - y * (⌈x / y⌉ : ℚ) := by
  rw [jsFmod, jsTrunc, if_neg h]

/-- The first remainder step lands strictly between -360 and 360. -/
theorem jsFmod360_bounds (x : ℚ) : -360 < jsFmod x 360 ∧ jsFmod x 360 < 360 := by
  have h360 : x / 360 * 360 = x := div_mul_cancel₀ x (by norm_num)
  by_cases hx : 0 ≤ x / 360
  · rw [jsFmod_of_nonneg x 360 hx]
    have hf1 : (⌊x / 360⌋ : ℚ) * 360 ≤ x := by
      nlinarith [mul_le_mul_of_nonneg_right (Int.floor_le (x / 360))
        (show (0:ℚ) ≤ 360 by norm_num)]
    have hf2 : x < ((⌊x / 360⌋ : ℚ) + 1) * 360 := by
      nlinarith [mul_lt_mul_of_pos_right (Int.lt_floor_add_one (x / 360))
        (show (0:ℚ) < 360 by norm_num)]
    constructor <;> nlinarith
  · rw [jsFmod_of_neg x 360 hx]
    have hf1 : x ≤ (⌈x / 360⌉ : ℚ) * 360 := by
      nlinarith [mul_le_mul_of_nonneg_right (Int.le_ceil (x / 360))
        (show (0:ℚ) ≤ 360 by norm_num)]
    have hf2 : (⌈x / 360⌉ : ℚ) * 360 < x + 360 := by
      nlinarith [mul_lt_mul_of_pos_right (Int.ceil_lt_add_one (x / 360))
        (show (0:ℚ) < 360 by norm_num)]
    constructor <;> nlinarith

/-- The normalized angle (angle % 360 + 360) % 360 lies in [0, 360). -/
theorem normAngle_bounds (x : ℚ) :
    0 ≤ jsFmod (jsFmod x 360 + 360) 360 ∧ jsFmod (jsFmod x 360 + 360) 360 < 360 := by
  obtain ⟨hlo, hhi⟩ := jsFmod360_bounds x
  have ht : 0 < jsFmod x 360 + 360 := by linarith
  have htq : 0 ≤ (jsFmod x 360 + 360) / 360 := by positivity
  have h360 : (jsFmod x 360 + 360) / 360 * 360 = jsFmod x 360 + 360 :=
    div_mul_cancel₀ _ (by norm_num)
  rw [jsFmod_of_nonneg _ 360 htq]
  have hf1 : (⌊(jsFmod x 360 + 360) / 360⌋ : ℚ) * 360 ≤ jsFmod x 360 + 360 := by
    nlinarith [mul_le_mul_of_nonneg_right (Int.floor_le ((jsFmod x 360 + 360) / 360))
      (show (0:ℚ) ≤ 360 by norm_num)]
  have hf2 : jsFmod x 360 + 360 < ((⌊(jsFmod x 360 + 360) / 360⌋ : ℚ) + 1) * 360 := by
    nlinarith [mul_lt_mul_of_pos_right (Int.lt_floor_add_one ((jsFmod x 360 + 360) / 360))
      (show (0:ℚ) < 360 by norm_num)]
  constructor <;> nlinarith

/-- Claim C10: for every rational input angle, getAngleDescription returns
one of exactly the four cardinal descriptions; the oblique fallback branch
is unreachable. -/
theorem C10_only_four_cardinals (angle : ℚ) :
    getAngleDescription angle = "Frente (0°). Cámara frontal." ∨
    getAngleDescription angle = "Perfil Derecho (90°). Cámara a la derecha del sujeto." ∨
    getAngleDescription angle = "Espalda (180°). Cámara detrás del sujeto." ∨
    getAngleDescription angle = "Perfil Izquierdo (270°). Cámara a la izquierda del sujeto." := by
  have hb := normAngle_bounds angle
  unfold getAngleDescription
  set n := jsFmod (jsFmod angle 360 + 360) 360 with hn
  by_cases h1 : 315 ≤ n ∨ n < 45
  · simp [h1]
  · by_cases h2 : 45 ≤ n ∧ n < 135
    · simp [h1, h2]
    · by_cases h3 : 135 ≤ n ∧ n < 225
      · simp [h1, h2, h3]
      · by_cases h4 : 225 ≤ n ∧ n < 315
        · simp [h1, h2, h3, h4]
        · exfalso
          push_neg at h1 h2 h3 h4
          obtain ⟨hb0, hb1⟩ := hb
          have ha : 45 ≤ n := h1.2
          have hc : 135 ≤ n := h2 ha
          have hd : 225 ≤ n := h3 hc
          have he : 315 ≤ n := h4 hd
          exact absurd he (not_le.mpr h1.1)

/-- arctan of a nonpositive argument is nonpositive. -/
theorem arctan_nonpos_of {t : Real} (h : t ≤ 0) : Real.arctan t ≤ 0 := by
  have hm := Real.arctan_strictMono.monotone h
  rwa [Real.arctan_zero] at hm

/-- arctan of a positive argument is positive. -/
theorem arctan_pos_of {t : Real} (h : 0 < t) : 0 < Real.arctan t := by
  have hm := Real.arctan_strictMono h
  rwa [Real.arctan_zero] at hm

/-- arctan is below the identity on positive arguments. -/
theorem arctan_lt_self_of_pos {t : Real} (h : 0 < t) : Real.arctan t < t := by
  have h1 : 0 < Real.arctan t := arctan_pos_of h
  have h2 : Real.arctan t < Real.pi / 2 := Real.arctan_lt_pi_div_two t
  have h3 := Real.lt_tan h1 h2
  rwa [Real.tan_arctan] at h3

/-- Math.atan2(y, x): quadrant-corrected arctangent with values in
(-pi, pi]. -/
noncomputable def atan2 (y x : Real) : Real :=
  if 0 < x then Real.arctan (y / x)
  else if x < 0 then
    (if 0 ≤ y then Real.arctan (y / x) + Real.pi else Real.arctan (y / x) - Real.pi)
  else if 0 < y then Real.pi / 2
  else if y < 0 then -(Real.pi / 2)
  else 0

/-- calculateAngle of KnobControl.tsx before rounding: atan2 converted to
degrees, shifted by 90 so 0 degrees points up, plus 360 when negative. -/
noncomputable def calcPre (dx dy : Real) : Real :=
  let angle := atan2 dy dx * (180 / Real.pi)
  let angle2 := angle + 90
  if angle2 < 0 then angle2 + 360 else angle2

/-- calculateAngle of KnobControl.tsx: Math.round of the shifted degree
value, for a pointer at offset (dx, dy) from the knob center. -/
noncomputable def calculateAngle (dx dy : Real) : Int := round (calcPre dx dy)

/-- atan2 ranges over (-pi, pi]. -/
theorem atan2_bounds (y x : Real) : -Real.pi < atan2 y x ∧ atan2 y x ≤ Real.pi := by
  have hpi := Real.pi_pos
  have ha1 := Real.arctan_lt_pi_div_two (y / x)
  have ha2 := Real.neg_pi_div_two_lt_arctan (y / x)
  unfold atan2
  split_ifs with h1 h2 h3 h4 h5
  · constructor <;> linarith
  · have hq : y / x ≤ 0 := div_nonpos_iff.mpr (Or.inl ⟨h3, h2.le⟩)
    have hs := arctan_nonpos_of hq
    constructor <;> linarith
  · have hq : 0 < y / x := div_pos_iff.mpr (Or.inr ⟨by linarith, h2⟩)
    have hs := arctan_pos_of hq
    constructor <;> linarith
  · constructor <;> linarith
  · constructor <;> linarith
  · constructor <;> linarith

/-- The pre-rounding knob value lies in [0, 360). -/
theorem calcPre_bounds (dx dy : Real) : 0 ≤ calcPre dx dy ∧ calcPre dx dy < 360 := by
  obtain ⟨hlo, hhi⟩ := atan2_bounds dy dx
  have hpi := Real.pi_pos
  have hcpos : (0 : Real) < 180 / Real.pi := by positivity
  have hdeg_hi : atan2 dy dx * (180 / Real.pi) ≤ 180 := by
    have h1 : atan2 dy dx * (180 / Real.pi) ≤ Real.pi * (180 / Real.pi) :=
      mul_le_mul_of_nonneg_right hhi hcpos.le
    have h2 : Real.pi * (180 / Real.pi) = 180 := by field_simp
    linarith
  have hdeg_lo : -180 < atan2 dy dx * (180 / Real.pi) := by
    have h1 : -Real.pi * (180 / Real.pi) < atan2 dy dx * (180 / Real.pi) :=
      mul_lt_mul_of_pos_right hlo hcpos
    have h2 : -Real.pi * (180 / Real.pi) = -180 := by
      field_simp
      ring
    linarith
  simp only [calcPre]
  split_ifs with h
  · constructor <;> linarith
  · constructor <;> linarith

/-- Claim C7 (amended): the knob angle is the rounding of the atan2 degree
value rotated so 0 points up and normalized to [0, 360) before rounding;
the returned integer always lies in the closed interval [0, 360] (the
value 360 itself is attainable, see the counterexample). -/
theorem C7_knob_angle_range (dx dy : Real) :
    (0 ≤ calcPre dx dy ∧ calcPre dx dy < 360) ∧
    calculateAngle dx dy = round (calcPre dx dy) ∧
    0 ≤ calculateAngle dx dy ∧ calculateAngle dx dy ≤ 360 := by
  obtain ⟨h0, h1⟩ := calcPre_bounds dx dy
  refine ⟨⟨h0, h1⟩, rfl, ?_, ?_⟩
  · rw [calculateAngle, round_eq]
    refine Int.le_floor.mpr ?_
    push_cast
    linarith
  · rw [calculateAngle, round_eq]
    have hlt : ⌊calcPre dx dy + 1 / 2⌋ < 361 := by
      refine Int.floor_lt.mpr ?_
      push_cast
      linarith
    omega

/-- Claim C7 counterexample: at pointer offset dx = -1, dy = -300 the knob
computation returns 360, which is outside [0, 360): the pre-rounding value
is just below 360 and Math.round carries it to 360. -/
theorem C7_counterexample :
    calculateAngle (-1) (-300) = 360 ∧ ¬(calculateAngle (-1) (-300) < 360) := by
  have hpi := Real.pi_pos
  have hpi3 : (3 : Real) < Real.pi := Real.pi_gt_three
  have hcpos : (0 : Real) < 180 / Real.pi := by positivity
  have hA1 : Real.arctan 300 < Real.pi / 2 := Real.arctan_lt_pi_div_two 300
  have hA2 : Real.pi / 2 - 1 / 300 ≤ Real.arctan 300 := by
    have harc : Real.arctan ((300 : Real)⁻¹) < (300 : Real)⁻¹ :=
      arctan_lt_self_of_pos (by norm_num)
    rw [Real.arctan_inv_of_pos (by norm_num : (0 : Real) < 300)] at harc
    have hi : ((300 : Real)⁻¹) = 1 / 300 := by norm_num
    rw [hi] at harc
    linarith
  have hatan2 : atan2 (-300 : Real) (-1 : Real) = Real.arctan 300 - Real.pi := by
    unfold atan2
    rw [if_neg (by norm_num), if_pos (by norm_num), if_neg (by norm_num)]
    norm_num
  have hpc : Real.pi * (180 / Real.pi) = 180 := by field_simp
  have hAc1 : Real.arctan 300 * (180 / Real.pi) < 90 := by
    have h1 : Real.arctan 300 * (180 / Real.pi) < Real.pi / 2 * (180 / Real.pi) :=
      mul_lt_mul_of_pos_right hA1 hcpos
    have h2 : Real.pi / 2 * (180 / Real.pi) = 90 := by
      field_simp
      ring
    linarith
  have hAc2 : (89.8 : Real) < Real.arctan 300 * (180 / Real.pi) := by
    have h1 : (Real.pi / 2 - 1 / 300) * (180 / Real.pi) ≤
        Real.arctan 300 * (180 / Real.pi) :=
      mul_le_mul_of_nonneg_right hA2 hcpos.le
    have h2 : (Real.pi / 2 - 1 / 300) * (180 / Real.pi) = 90 - (3 / 5) / Real.pi := by
      field_simp
      ring
    have h3 : (3 / 5 : Real) / Real.pi < 1 / 5 := by
      rw [div_lt_iff₀ hpi]
      linarith
    linarith
  have hexp : (Real.arctan 300 - Real.pi) * (180 / Real.pi) =
      Real.arctan 300 * (180 / Real.pi) - 180 := by
    rw [sub_mul, hpc]
  have hval : calcPre (-1) (-300) = Real.arctan 300 * (180 / Real.pi) + 270 := by
    simp only [calcPre]
    rw [hatan2, hexp]
    rw [if_pos (by linarith)]
    ring
  have hmain : calculateAngle (-1) (-300) = 360 := by
    rw [calculateAngle, hval, round_eq]
    refine Int.floor_eq_iff.mpr ?_
    constructor
    · push_cast
      linarith
    · push_cast
      linarith
  exact ⟨hmain, by rw [hmain]; omega⟩
